import Mathlib

/-!
Verification development for the `file_compressor` repository
(`src/lib.rs`): a zstd-based file/directory compression library.

The Rust code is shallowly embedded as follows.

* Byte sequences are `List Nat`; file-name strings are `List Char`.
* A path is a list of components (`FilePath`), absolute from the root
  `[]`.  The filesystem is a pair of association lists: regular files
  (path to contents, earlier entries shadow later ones) and a set of
  existing directories.  The root `[]` always exists as a directory.
* The zstd codec and the tar container come from external crates
  (`zstd`, `tar`); the spec treats both as external collaborators.
  The codec is abstracted as a `Codec` pair of total functions; the
  archive container is modelled from the spec as an invertible
  encoding of named entries (`tarBuild` / `tarParse`).
* Engine operations return an `OpResult`: the final filesystem, the
  list of values that would be passed to the progress callback (the
  code fires the callback only when one is registered; the list is the
  sequence of values reported when it is), and an `Except` outcome
  mirroring the `std::io::ErrorKind` classification used by the code.
* `u64`/`usize` quantities are `Nat`; the `i32` compression level is
  `Int`.  The `f64` progress estimate `(t as f64 / 3.0).min(s) as u64`
  is modelled as `min (t / 3) s` with `Nat` division, which matches
  the Rust value for all sizes below `2^53`.
-/

/-- Error classification mirroring the `std::io::ErrorKind` values the
library constructs; `other` stands for any kind the code does not pick
itself (e.g. raw OS errors such as EISDIR). -/
inductive Err where
  | notFound
  | alreadyExists
  | invalidInput
  | invalidData
  | other
deriving DecidableEq, Repr

/-- `BUFFER_SIZE_SMALL` from `lib.rs`: 256 KiB. -/
def BUFFER_SIZE_SMALL : Nat := 256 * 1024

/-- `BUFFER_SIZE_LARGE` from `lib.rs`: 1 MiB. -/
def BUFFER_SIZE_LARGE : Nat := 1024 * 1024

/-- `LARGE_FILE_THRESHOLD` from `lib.rs`: 10 MiB. -/
def LARGE_FILE_THRESHOLD : Nat := 10 * 1024 * 1024

/-- `AUTO_PARALLEL_THRESHOLD` from `lib.rs`: 1 MiB. -/
def AUTO_PARALLEL_THRESHOLD : Nat := 1024 * 1024

/-- `optimal_buffer_size` from `lib.rs`. -/
def optimal_buffer_size (file_size : Nat) : Nat :=
  if file_size ≥ LARGE_FILE_THRESHOLD then BUFFER_SIZE_LARGE else BUFFER_SIZE_SMALL

/-- `BUFFER_SIZE` from `lib.rs` (compatibility alias, used by `verify_zst`). -/
def BUFFER_SIZE : Nat := BUFFER_SIZE_SMALL

/-- A file- or directory-name component, as a character list. -/
abbrev Name := List Char

/-- A path: components from the root. -/
abbrev FilePath' := List Name

/-- Splits a name at its last `'.'`: returns (part before, part after).
`none` when the name contains no dot. -/
def lastDotSplit : Name → Option (Name × Name)
  | [] => none
  | c :: rest =>
    match lastDotSplit rest with
    | some (pre, post) => some (c :: pre, post)
    | none => if c = '.' then some ([], rest) else none

/-- Rust `Path::extension` on a file name: the portion after the final
dot, unless the only dot is the leading character. -/
def extensionOf (name : Name) : Option Name :=
  match lastDotSplit name with
  | some ([], _) => none
  | some (_, post) => some post
  | none => none

/-- Rust `Path::file_stem` on a file name: the portion before the final
dot (the whole name when there is no dot, or only a leading one). -/
def fileStemOf (name : Name) : Name :=
  match lastDotSplit name with
  | some ([], _) => name
  | some (pre, _) => pre
  | none => name

/-- Rust `Path::with_extension` acting on the file name. -/
def withExtensionName (name ext : Name) : Name :=
  fileStemOf name ++ (if ext = [] then [] else '.' :: ext)

/-- `build_output_path` from `lib.rs`, acting on the file name: append
`.zst` to the existing extension, or set extension `zst` if none. -/
def buildOutputName (name : Name) : Name :=
  match extensionOf name with
  | some ext => withExtensionName name (ext ++ ".zst".data)
  | none => withExtensionName name "zst".data

/-- `build_output_path` from `lib.rs`. -/
def build_output_path (p : FilePath') : FilePath' :=
  match p.getLast? with
  | none => p
  | some name => p.dropLast ++ [buildOutputName name]

/-- The `input_path.extension() == "zst"` test used by `decompress_file`
and `verify_zst` (a missing extension reads as `""`). -/
def hasZstExt (name : Name) : Bool :=
  match extensionOf name with
  | some e => decide (e = "zst".data)
  | none => false

/-- The `to_string_lossy().ends_with(".tar.zst")` test of
`decompress_file`.  On a component path this is equivalent to the last
component ending in `.tar.zst`, since the suffix contains no path
separator. -/
def isTarPath (p : FilePath') : Bool :=
  decide (".tar.zst".data <:+ p.getLast?.getD [])

/-- `CompressionResult` from `lib.rs`. -/
structure CompressionResult where
  input_size : Nat
  output_size : Nat
deriving DecidableEq, Repr

/-- `VerifyResult` from `lib.rs`. -/
structure VerifyResult where
  compressed_size : Nat
  decompressed_size : Nat
deriving DecidableEq, Repr

/-- `CompressOptions` from `lib.rs`.  The `progress_callback` field is
not carried: operations instead return the list of values the callback
would receive. -/
structure CompressOptions where
  level : Int
  force : Bool
  parallel : Bool
  auto_parallel : Bool
  output_path : Option FilePath'
deriving DecidableEq, Repr

/-- `CompressOptions::new` from `lib.rs`: stores the given level
unvalidated; `auto_parallel` enabled by default. -/
def CompressOptions.new (level : Int) : CompressOptions :=
  { level := level, force := false, parallel := false,
    auto_parallel := true, output_path := none }

/-- The `#[derive(Default)]` constructor of `CompressOptions`:
field-wise Rust defaults (`0`, `false`, `None`). -/
def CompressOptions.derivedDefault : CompressOptions :=
  { level := 0, force := false, parallel := false,
    auto_parallel := false, output_path := none }

/-- `CompressOptions::should_use_parallel` from `lib.rs`. -/
def CompressOptions.should_use_parallel (o : CompressOptions) (file_size : Nat) : Bool :=
  o.parallel || (o.auto_parallel && decide (file_size ≥ AUTO_PARALLEL_THRESHOLD))

/-- `DecompressOptions` from `lib.rs` (callback field elided as above). -/
structure DecompressOptions where
  force : Bool
  output_path : Option FilePath'
deriving DecidableEq, Repr

/-- Decimal digit value of a character, if it is one. -/
def digitVal (c : Char) : Option Nat :=
  if '0' ≤ c ∧ c ≤ '9' then some (c.toNat - '0'.toNat) else none

/-- Accumulating decimal parser; fails on any non-digit. -/
def parseDigitsAux (acc : Nat) : List Char → Option Nat
  | [] => some acc
  | c :: rest =>
    match digitVal c with
    | some d => parseDigitsAux (acc * 10 + d) rest
    | none => none

/-- Parses a non-empty all-digit string. -/
def parseDigits : List Char → Option Nat
  | [] => none
  | s => parseDigitsAux 0 s

/-- Rust `str::parse::<i32>`: optional sign, decimal digits, result
within the `i32` range. -/
def parseI32 (s : List Char) : Option Int :=
  match s with
  | '+' :: rest =>
    (parseDigits rest).bind fun n =>
      if n ≤ 2147483647 then some (n : Int) else none
  | '-' :: rest =>
    (parseDigits rest).bind fun n =>
      if n ≤ 2147483648 then some (-(n : Int)) else none
  | _ =>
    (parseDigits s).bind fun n =>
      if n ≤ 2147483647 then some (n : Int) else none

/-- `parse_level` from `lib.rs`: parse as `i32`, then require
`(1..=21).contains`.  `some v` models `Ok(v)`; the error messages are
not modelled. -/
def parse_level (s : List Char) : Option Int :=
  match parseI32 s with
  | some v => if 1 ≤ v ∧ v ≤ 21 then some v else none
  | none => none

/-- Association-list lookup for file contents (head entry wins, so
overwriting prepends). -/
def lookupFile : List (FilePath' × List Nat) → FilePath' → Option (List Nat)
  | [], _ => none
  | (q, c) :: rest, p => if p = q then some c else lookupFile rest p

/-- The filesystem: regular files and directories.  The root `[]` is
always a directory. -/
structure FS where
  files : List (FilePath' × List Nat)
  dirs : List FilePath'
deriving DecidableEq, Repr

/-- Whether `p` is a regular file. -/
def FS.isFile (fs : FS) (p : FilePath') : Bool :=
  (lookupFile fs.files p).isSome

/-- Whether `p` is a directory (the root always is). -/
def FS.isDir (fs : FS) (p : FilePath') : Bool :=
  decide (p = []) || decide (p ∈ fs.dirs)

/-- Rust `Path::exists`. -/
def FS.pathExists (fs : FS) (p : FilePath') : Bool :=
  fs.isFile p || fs.isDir p

/-- Create or overwrite a regular file (`File::create` + the write). -/
def FS.setFile (fs : FS) (p : FilePath') (c : List Nat) : FS :=
  { fs with files := (p, c) :: fs.files }

/-- The non-empty prefixes of a path: the ancestor chain `mkdir -p`
would create. -/
def ancestors (d : FilePath') : List FilePath' :=
  (List.range d.length).map fun i => d.take (i + 1)

/-- `std::fs::create_dir_all`: fails (`none`) when some ancestor exists
as a regular file, otherwise records every ancestor as a directory. -/
def mkdirAll (fs : FS) (d : FilePath') : Option FS :=
  if (ancestors d).all (fun q => !fs.isFile q) then
    some { fs with dirs := ancestors d ++ fs.dirs }
  else none

/-- The `if !parent.exists() { create_dir_all(parent)? }` step shared
by the engine operations. -/
def mkdirIfMissing (fs : FS) (d : FilePath') : Option FS :=
  if fs.pathExists d then some fs else mkdirAll fs d

/-- The zstd codec, abstracted at its interface: `comp` is the whole
encoder pipeline (level, worker and window parameters folded into the
level argument's effect on bytes), `decomp` the decoder, `none`
signalling a corrupt stream. -/
structure Codec where
  comp : Int → List Nat → List Nat
  decomp : List Nat → Option (List Nat)

/-- A codec is lossless when decoding inverts encoding at every level. -/
def Codec.Lossless (c : Codec) : Prop :=
  ∀ level data, c.decomp (c.comp level data) = some data

/-- A trivial lossless codec, used to instantiate concrete runs. -/
def idCodec : Codec :=
  { comp := fun _ d => d, decomp := fun d => some d }

theorem idCodec_lossless : idCodec.Lossless := fun _ _ => rfl

/-- Modelled from the spec: the tar archive container (external `tar`
crate) at its interface — a stream of named entries.  Encoding: for
each entry, the component count, then each component as length-prefixed
characters, then the length-prefixed contents. -/
def tarBuild (entries : List (FilePath' × List Nat)) : List Nat :=
  entries.flatMap fun e =>
    e.1.length ::
      (e.1.flatMap fun comp => comp.length :: comp.map Char.toNat) ++
        (e.2.length :: e.2)

/-- Parses `n` length-prefixed components. -/
def parseComps : Nat → List Nat → Option (List Name × List Nat)
  | 0, rest => some ([], rest)
  | _ + 1, [] => none
  | k + 1, len :: rest =>
    if rest.length < len then none
    else
      (parseComps k (rest.drop len)).map fun r =>
        ((rest.take len).map Char.ofNat :: r.1, r.2)

/-- Modelled from the spec: tar stream parsing, entry by entry;
`none` on a malformed stream.  Fuel-based for structural recursion. -/
def tarParseAux : Nat → List Nat → Option (List (FilePath' × List Nat))
  | _, [] => some []
  | 0, _ :: _ => none
  | fuel + 1, ncomps :: rest =>
    match parseComps ncomps rest with
    | none => none
    | some (comps, rest1) =>
      match rest1 with
      | [] => none
      | clen :: rest2 =>
        if rest2.length < clen then none
        else
          match tarParseAux fuel (rest2.drop clen) with
          | none => none
          | some es => some ((comps, rest2.take clen) :: es)

/-- Entry point of the tar-stream parser. -/
def tarParse (l : List Nat) : Option (List (FilePath' × List Nat)) :=
  tarParseAux l.length l

/-- Chunk sizes produced by reading `n` bytes through a buffer of size
`bs` (fuel-based; `bs` is always positive at call sites). -/
def chunkSizesAux : Nat → Nat → Nat → List Nat
  | 0, _, _ => []
  | fuel + 1, n, bs =>
    if n = 0 then []
    else if n ≤ bs then [n]
    else bs :: chunkSizesAux fuel (n - bs) bs

/-- Chunk sizes for `n` bytes with buffer `bs`. -/
def chunkSizes (n bs : Nat) : List Nat := chunkSizesAux n n bs

/-- Running totals of a list of increments starting from `acc`:
the values handed to an unthrottled progress callback. -/
def cumSums (acc : Nat) : List Nat → List Nat
  | [] => []
  | x :: xs => (acc + x) :: cumSums (acc + x) xs

/-- The throttled progress loop of `decompress_single_file` /
`verify_zst`: state is (bytes so far, bytes at last report); a chunk
pushing the backlog to 1 MiB or more emits
`min (total / 3) input_size`, annotated here with the byte total at
emission time. -/
def throttledPairs (input_size : Nat) : Nat → Nat → List Nat → List (Nat × Nat)
  | _, _, [] => []
  | total, last, sz :: rest =>
    if total + sz - last ≥ 1024 * 1024 then
      (total + sz, min ((total + sz) / 3) input_size) ::
        throttledPairs input_size (total + sz) (total + sz) rest
    else
      throttledPairs input_size (total + sz) last rest

/-- Result of one engine operation: final filesystem, the progress
values reported, and the outcome. -/
structure OpResult (R : Type) where
  fs : FS
  events : List Nat
  result : Except Err R

/-- Output-path resolution of `compress_file`: an explicit output that
is a directory gets the source file name plus `.zst` appended;
an explicit file path is used verbatim; otherwise `build_output_path`.
`none` models the `InvalidInput` "Nome file non valido" case. -/
def resolveCompressOut (fs : FS) (input : FilePath') (op : Option FilePath') :
    Option FilePath' :=
  match op with
  | some p =>
    if fs.isDir p then
      match input.getLast? with
      | none => none
      | some name => some (p ++ [name ++ ".zst".data])
    else some p
  | none => some (build_output_path input)

/-- `compress_file` from `lib.rs`.  Progress: one callback per chunk
read, with the cumulative byte count.  An input that exists but is not
a regular file fails at the read loop, after the output was truncated,
mirroring the code's effect order. -/
def compress_file (c : Codec) (fs : FS) (input_path : FilePath')
    (options : CompressOptions) : OpResult CompressionResult :=
  if !fs.pathExists input_path then ⟨fs, [], .error .notFound⟩ else
  match resolveCompressOut fs input_path options.output_path with
  | none => ⟨fs, [], .error .invalidInput⟩
  | some output_path =>
  if fs.pathExists output_path && !options.force then ⟨fs, [], .error .alreadyExists⟩ else
  match mkdirIfMissing fs output_path.dropLast with
  | none => ⟨fs, [], .error .other⟩
  | some fs1 =>
  if !fs1.isDir output_path.dropLast then ⟨fs1, [], .error .notFound⟩ else
  if fs1.isDir output_path then ⟨fs1, [], .error .other⟩ else
  match lookupFile fs1.files input_path with
  | none => ⟨fs1.setFile output_path [], [], .error .other⟩
  | some data =>
    let input_size := data.length
    let buffer_size := optimal_buffer_size input_size
    let compressed := c.comp options.level data
    ⟨fs1.setFile output_path compressed,
      cumSums 0 (chunkSizes input_size buffer_size),
      .ok ⟨input_size, compressed.length⟩⟩

/-- All regular files strictly below `base`, keyed by their path
relative to it, in file-table order.  Models the recursive `read_dir`
walk of `add_dir_to_tar_with_progress`; the spec notes traversal order
is not a contract. -/
def filesUnder (fs : FS) (base : FilePath') : List (FilePath' × List Nat) :=
  fs.files.filterMap fun pc =>
    if base <+: pc.1 ∧ pc.1 ≠ base then some (pc.1.drop base.length, pc.2) else none

/-- `calculate_dir_size` from `lib.rs`. -/
def calculate_dir_size (fs : FS) (dir : FilePath') : Nat :=
  ((filesUnder fs dir).map fun e => e.2.length).sum

/-- Output-path resolution of `compress_directory`:
`<parent>/<dirname>.tar.zst`, or under / at the explicit output. -/
def resolveDirOut (fs : FS) (dir_path : FilePath') (op : Option FilePath') :
    FilePath' :=
  let dir_name := dir_path.getLast?.getD "archivio".data
  match op with
  | some p => if fs.isDir p then p ++ [dir_name ++ ".tar.zst".data] else p
  | none => dir_path.dropLast ++ [dir_name ++ ".tar.zst".data]

/-- `compress_directory` from `lib.rs`.  Progress: one callback per
file appended, with the cumulative byte size archived so far. -/
def compress_directory (c : Codec) (fs : FS) (dir_path : FilePath')
    (options : CompressOptions) : OpResult CompressionResult :=
  if !fs.pathExists dir_path then ⟨fs, [], .error .notFound⟩ else
  if !fs.isDir dir_path then ⟨fs, [], .error .invalidInput⟩ else
  let output_path := resolveDirOut fs dir_path options.output_path
  if fs.pathExists output_path && !options.force then ⟨fs, [], .error .alreadyExists⟩ else
  match mkdirIfMissing fs output_path.dropLast with
  | none => ⟨fs, [], .error .other⟩
  | some fs1 =>
  if !fs1.isDir output_path.dropLast then ⟨fs1, [], .error .notFound⟩ else
  if fs1.isDir output_path then ⟨fs1, [], .error .other⟩ else
  let entries := filesUnder fs1 dir_path
  let total_size := calculate_dir_size fs1 dir_path
  let compressed := c.comp options.level (tarBuild entries)
  ⟨fs1.setFile output_path compressed,
    cumSums 0 (entries.map fun e => e.2.length),
    .ok ⟨total_size, compressed.length⟩⟩

/-- The per-file loop of `compress_multiple_files`: each entry is
stored under its bare file name; a listed path that is not a regular
file makes the append fail. -/
def collectEntries (fs : FS) : List FilePath' → Option (List (FilePath' × List Nat))
  | [] => some []
  | f :: rest =>
    match lookupFile fs.files f with
    | none => none
    | some d =>
      (collectEntries fs rest).map fun es => ([f.getLast?.getD "file".data], d) :: es

/-- `compress_multiple_files` from `lib.rs`.  Note: unlike the other
operations, it never creates parent directories of `output_path`;
`File::create` then fails with `NotFound` when the parent is absent. -/
def compress_multiple_files (c : Codec) (fs : FS) (input_files : List FilePath')
    (output_path : FilePath') (options : CompressOptions) : OpResult CompressionResult :=
  if input_files.any (fun f => !fs.pathExists f) then ⟨fs, [], .error .notFound⟩ else
  if fs.pathExists output_path && !options.force then ⟨fs, [], .error .alreadyExists⟩ else
  if !fs.isDir output_path.dropLast then ⟨fs, [], .error .notFound⟩ else
  if fs.isDir output_path then ⟨fs, [], .error .other⟩ else
  match collectEntries fs input_files with
  | none => ⟨fs.setFile output_path [], [], .error .other⟩
  | some entries =>
    let sizes := entries.map fun e => e.2.length
    let compressed := c.comp options.level (tarBuild entries)
    ⟨fs.setFile output_path compressed, cumSums 0 sizes,
      .ok ⟨sizes.sum, compressed.length⟩⟩

/-- Output resolution of `decompress_single_file`: explicit directory
output joins the derived name; explicit file path is verbatim; default
is the input with its trailing extension stripped. -/
def resolveSingleOut (fs : FS) (input : FilePath') (op : Option FilePath')
    (default_name : Name) : FilePath' :=
  match op with
  | some p => if fs.isDir p then p ++ [default_name] else p
  | none => input.dropLast ++ [default_name]

/-- `decompress_single_file` from `lib.rs`.  The default output strips
the trailing `.zst`; progress is throttled per `throttledPairs`, with
a final callback carrying the exact compressed input size. -/
def decompress_single_file (c : Codec) (fs : FS) (input_path : FilePath')
    (options : DecompressOptions) : OpResult CompressionResult :=
  match input_path.getLast? with
  | none => ⟨fs, [], .error .invalidInput⟩
  | some name =>
  let output_path := resolveSingleOut fs input_path options.output_path (fileStemOf name)
  if fs.pathExists output_path && !options.force then ⟨fs, [], .error .alreadyExists⟩ else
  match mkdirIfMissing fs output_path.dropLast with
  | none => ⟨fs, [], .error .other⟩
  | some fs1 =>
  match lookupFile fs1.files input_path with
  | none =>
    if fs1.pathExists input_path then ⟨fs1, [], .error .other⟩
    else ⟨fs1, [], .error .notFound⟩
  | some bytes =>
  let input_size := bytes.length
  let buffer_size := optimal_buffer_size input_size
  if !fs1.isDir output_path.dropLast then ⟨fs1, [], .error .notFound⟩ else
  if fs1.isDir output_path then ⟨fs1, [], .error .other⟩ else
  match c.decomp bytes with
  | none => ⟨fs1.setFile output_path [], [], .error .invalidData⟩
  | some plain =>
    let pairs := throttledPairs input_size 0 0 (chunkSizes plain.length buffer_size)
    ⟨fs1.setFile output_path plain, pairs.map Prod.snd ++ [input_size],
      .ok ⟨input_size, plain.length⟩⟩

/-- The extraction loop of `decompress_tar_zst`: create each entry's
parent chain, then write the entry. -/
def extractAll (base : FilePath') : FS → List (FilePath' × List Nat) → Option FS
  | fs, [] => some fs
  | fs, (rel, content) :: rest =>
    match mkdirIfMissing fs (base ++ rel).dropLast with
    | none => none
    | some fsa =>
      if fsa.isDir (base ++ rel) then none
      else extractAll base (fsa.setFile (base ++ rel) content) rest

/-- `decompress_tar_zst` from `lib.rs`.  The output directory strips
both suffixes; progress is a running count of files extracted. -/
def decompress_tar_zst (c : Codec) (fs : FS) (input_path : FilePath')
    (options : DecompressOptions) : OpResult CompressionResult :=
  let stem2 :=
    match input_path.getLast? with
    | none => "output".data
    | some name => fileStemOf (fileStemOf name)
  let withDir := fun (output_dir : FilePath') =>
    if fs.pathExists output_dir && !options.force then
      (⟨fs, [], .error .alreadyExists⟩ : OpResult CompressionResult)
    else
      match (if fs.isDir output_dir then some fs else mkdirAll fs output_dir) with
      | none => ⟨fs, [], .error .other⟩
      | some fs1 =>
        match lookupFile fs1.files input_path with
        | none =>
          if fs1.pathExists input_path then ⟨fs1, [], .error .other⟩
          else ⟨fs1, [], .error .notFound⟩
        | some bytes =>
          let input_size := bytes.length
          match c.decomp bytes with
          | none => ⟨fs1, [], .error .invalidData⟩
          | some plain =>
            match tarParse plain with
            | none => ⟨fs1, [], .error .invalidData⟩
            | some entries =>
              match extractAll output_dir fs1 entries with
              | none => ⟨fs1, [], .error .other⟩
              | some fs2 =>
                ⟨fs2, cumSums 0 (entries.map fun _ => 1),
                  .ok ⟨input_size, (entries.map fun e => e.2.length).sum⟩⟩
  match options.output_path with
  | some p =>
    if fs.pathExists p && !fs.isDir p then ⟨fs, [], .error .invalidInput⟩
    else withDir p
  | none => withDir (input_path.dropLast ++ [stem2])

/-- `decompress_file` from `lib.rs`: existence check, `.zst` extension
gate, then dispatch on the `.tar.zst` suffix. -/
def decompress_file (c : Codec) (fs : FS) (input_path : FilePath')
    (options : DecompressOptions) : OpResult CompressionResult :=
  if !fs.pathExists input_path then ⟨fs, [], .error .notFound⟩ else
  if !hasZstExt (input_path.getLast?.getD []) then ⟨fs, [], .error .invalidInput⟩ else
  if isTarPath input_path then decompress_tar_zst c fs input_path options
  else decompress_single_file c fs input_path options

/-- `verify_zst` from `lib.rs`: decode discarding output; note the
fixed `BUFFER_SIZE` chunking, unlike decompression.  Decoder failure
at any point is wrapped as `InvalidData`. -/
def verify_zst (c : Codec) (fs : FS) (input_path : FilePath') : OpResult VerifyResult :=
  if !fs.pathExists input_path then ⟨fs, [], .error .notFound⟩ else
  if !hasZstExt (input_path.getLast?.getD []) then ⟨fs, [], .error .invalidInput⟩ else
  match lookupFile fs.files input_path with
  | none => ⟨fs, [], .error .other⟩
  | some bytes =>
  let input_size := bytes.length
  match c.decomp bytes with
  | none => ⟨fs, [], .error .invalidData⟩
  | some plain =>
    let pairs := throttledPairs input_size 0 0 (chunkSizes plain.length BUFFER_SIZE)
    ⟨fs, pairs.map Prod.snd ++ [input_size],
      .ok ⟨input_size, plain.length⟩⟩

-- Concrete evaluations anchoring the embedding against the Rust behavior.
example : tarParse (tarBuild [(["a".data], [7, 8])]) = some [(["a".data], [7, 8])] := by decide
example : tarParse [1, 2, 3] = none := by decide
example : chunkSizes 5 2 = [2, 2, 1] := by decide
example : cumSums 0 [2, 2, 1] = [2, 4, 5] := by decide
example : throttledPairs 10 0 0 [3] = [] := by decide
example : parse_level "21".data = some 21 := by decide
example : parse_level "0".data = none := by decide
example : parse_level "-3".data = none := by decide
example : parse_level "abc".data = none := by decide
example : buildOutputName "x.tar".data = "x.tar.zst".data := by decide
example : buildOutputName "README".data = "README.zst".data := by decide
example : buildOutputName "a.".data = "a..zst".data := by decide
example : fileStemOf "x.tar.zst".data = "x.tar".data := by decide
example : extensionOf ".gitignore".data = none := by decide
example : hasZstExt "x.tar.zst".data = true := by decide
example : isTarPath ["x.tar.zst".data] = true := by decide
example : isTarPath ["dir".data, "x.zst".data] = false := by decide

/-! ### Filesystem lemmas -/

theorem FS.dirs_setFile (fs : FS) (q : FilePath') (v : List Nat) :
    (fs.setFile q v).dirs = fs.dirs := rfl

theorem FS.isDir_setFile (fs : FS) (q p : FilePath') (v : List Nat) :
    (fs.setFile q v).isDir p = fs.isDir p := rfl

theorem lookupFile_setFile_self (fs : FS) (q : FilePath') (v : List Nat) :
    lookupFile (fs.setFile q v).files q = some v := by
  simp [FS.setFile, lookupFile]

theorem lookupFile_setFile_ne (fs : FS) (p q : FilePath') (v : List Nat)
    (h : p ≠ q) : lookupFile (fs.setFile q v).files p = lookupFile fs.files p := by
  simp [FS.setFile, lookupFile, h]

theorem FS.isFile_of_lookup {fs : FS} {p : FilePath'} {d : List Nat}
    (h : lookupFile fs.files p = some d) : fs.isFile p = true := by
  simp [FS.isFile, h]

theorem FS.pathExists_of_isFile {fs : FS} {p : FilePath'}
    (h : fs.isFile p = true) : fs.pathExists p = true := by
  simp [FS.pathExists, h]

theorem FS.pathExists_of_isDir {fs : FS} {p : FilePath'}
    (h : fs.isDir p = true) : fs.pathExists p = true := by
  simp [FS.pathExists, h]

theorem FS.isDir_false_of_not_exists {fs : FS} {p : FilePath'}
    (h : fs.pathExists p = false) : fs.isDir p = false := by
  simp [FS.pathExists] at h
  exact h.2

theorem FS.isFile_false_of_not_exists {fs : FS} {p : FilePath'}
    (h : fs.pathExists p = false) : fs.isFile p = false := by
  simp [FS.pathExists] at h
  exact h.1

theorem FS.ne_nil_of_not_exists {fs : FS} {p : FilePath'}
    (h : fs.pathExists p = false) : p ≠ [] := by
  intro hp
  have := FS.isDir_false_of_not_exists h
  simp [FS.isDir, hp] at this

theorem ancestors_length_le {q d : FilePath'} (h : q ∈ ancestors d) :
    q.length ≤ d.length := by
  unfold ancestors at h
  obtain ⟨i, hi, rfl⟩ := List.mem_map.mp h
  simp [List.length_take]

theorem self_mem_ancestors {d : FilePath'} (h : d ≠ []) : d ∈ ancestors d := by
  unfold ancestors
  refine List.mem_map.mpr ⟨d.length - 1, List.mem_range.mpr ?_, ?_⟩
  · have : 0 < d.length := List.length_pos.mpr h
    omega
  · have : d.length - 1 + 1 = d.length := by
      have : 0 < d.length := List.length_pos.mpr h
      omega
    rw [this, List.take_length]

theorem mkdirAll_files {fs fs' : FS} {d : FilePath'}
    (h : mkdirAll fs d = some fs') : fs'.files = fs.files := by
  unfold mkdirAll at h
  split at h
  · cases h; rfl
  · cases h

theorem mkdirAll_dirs {fs fs' : FS} {d : FilePath'}
    (h : mkdirAll fs d = some fs') : fs'.dirs = ancestors d ++ fs.dirs := by
  unfold mkdirAll at h
  split at h
  · cases h; rfl
  · cases h

theorem mkdirAll_isDir_self {fs fs' : FS} {d : FilePath'}
    (h : mkdirAll fs d = some fs') : fs'.isDir d = true := by
  by_cases hd : d = []
  · simp [FS.isDir, hd]
  · simp [FS.isDir, mkdirAll_dirs h]
    exact Or.inr (Or.inl (self_mem_ancestors hd))

theorem mkdirAll_isDir_of {fs fs' : FS} {d q : FilePath'}
    (h : mkdirAll fs d = some fs') (hq : fs.isDir q = true) : fs'.isDir q = true := by
  simp [FS.isDir, mkdirAll_dirs h]
  simp [FS.isDir] at hq
  tauto

theorem mkdirAll_isDir_longer {fs fs' : FS} {d q : FilePath'}
    (h : mkdirAll fs d = some fs') (hlen : d.length < q.length)
    (hq : fs.isDir q = false) : fs'.isDir q = false := by
  simp [FS.isDir, mkdirAll_dirs h]
  simp [FS.isDir] at hq
  refine ⟨hq.1, fun hm => ?_, hq.2⟩
  have := ancestors_length_le hm
  omega

theorem mkdirAll_lookup {fs fs' : FS} {d : FilePath'}
    (h : mkdirAll fs d = some fs') (p : FilePath') :
    lookupFile fs'.files p = lookupFile fs.files p := by
  rw [mkdirAll_files h]

theorem mkdirIfMissing_isDir_of {fs fs' : FS} {d q : FilePath'}
    (h : mkdirIfMissing fs d = some fs') (hq : fs.isDir q = true) :
    fs'.isDir q = true := by
  unfold mkdirIfMissing at h
  split at h
  · cases h; exact hq
  · exact mkdirAll_isDir_of h hq

theorem extractAll_isDir_of {base : FilePath'} :
    ∀ {es : List (FilePath' × List Nat)} {fs fs' : FS} {q : FilePath'},
      extractAll base fs es = some fs' → fs.isDir q = true → fs'.isDir q = true := by
  intro es
  induction es with
  | nil => intro fs fs' q h hq; cases h; exact hq
  | cons e rest ih =>
    intro fs fs' q h hq
    unfold extractAll at h
    cases hm : mkdirIfMissing fs (base ++ e.1).dropLast with
    | none => rw [hm] at h; cases h
    | some fsa =>
      rw [hm] at h
      simp only at h
      split at h
      · cases h
      · exact ih h (by rw [FS.isDir_setFile]; exact mkdirIfMissing_isDir_of hm hq)

/-! ### Name and extension lemmas -/

theorem lastDotSplit_eq_none {s : Name} (h : '.' ∉ s) : lastDotSplit s = none := by
  induction s with
  | nil => rfl
  | cons c rest ih =>
    unfold lastDotSplit
    rw [ih (fun hm => h (List.mem_cons_of_mem c hm))]
    simp only []
    rw [if_neg (fun hc => h (by rw [← hc]; exact List.mem_cons_self c rest))]

theorem not_mem_of_lastDotSplit_none {s : Name} (h : lastDotSplit s = none) :
    '.' ∉ s := by
  induction s with
  | nil => simp
  | cons c rest ih =>
    unfold lastDotSplit at h
    cases hr : lastDotSplit rest with
    | some pq => rw [hr] at h; cases h
    | none =>
      rw [hr] at h
      simp only [] at h
      split at h
      · cases h
      · rename_i hc
        intro hm
        rcases List.mem_cons.mp hm with h1 | h2
        · exact hc h1.symm
        · exact ih hr h2

theorem lastDotSplit_append {xs ys : Name} (h : '.' ∉ ys) :
    lastDotSplit (xs ++ '.' :: ys) = some (xs, ys) := by
  induction xs with
  | nil =>
    rw [List.nil_append]
    unfold lastDotSplit
    rw [lastDotSplit_eq_none h]
    simp
  | cons x xs ih =>
    rw [List.cons_append]
    unfold lastDotSplit
    rw [ih]

theorem lastDotSplit_recover {name pre post : Name}
    (h : lastDotSplit name = some (pre, post)) :
    name = pre ++ '.' :: post ∧ '.' ∉ post := by
  induction name generalizing pre post with
  | nil => cases h
  | cons c rest ih =>
    unfold lastDotSplit at h
    cases hr : lastDotSplit rest with
    | some pq =>
      rw [hr] at h
      cases hpq : pq with
      | mk a b =>
        subst hpq
        simp only [] at h
        cases h
        obtain ⟨h1, h2⟩ := ih hr
        exact ⟨by rw [List.cons_append, ← h1], h2⟩
    | none =>
      rw [hr] at h
      simp only [] at h
      split at h
      · rename_i hc
        cases h
        exact ⟨by simp [hc], not_mem_of_lastDotSplit_none hr⟩
      · cases h

theorem dot_zst_data : ".zst".data = '.' :: "zst".data := rfl

theorem buildOutputName_eq (name : Name) :
    buildOutputName name = name ++ ".zst".data := by
  unfold buildOutputName extensionOf withExtensionName fileStemOf
  cases h : lastDotSplit name with
  | none => simp [dot_zst_data]
  | some pq =>
    cases hpq : pq with
    | mk pre post =>
      subst hpq
      obtain ⟨h1, _⟩ := lastDotSplit_recover h
      cases hpre : pre with
      | nil => simp [dot_zst_data]
      | cons a as =>
        subst hpre
        have hne : post ++ ".zst".data ≠ [] := by simp
        simp only [hne, if_neg]
        rw [h1]
        simp

theorem build_output_path_concat (dir : FilePath') (name : Name) :
    build_output_path (dir ++ [name]) = dir ++ [name ++ ".zst".data] := by
  unfold build_output_path
  rw [List.getLast?_concat, List.dropLast_concat]
  simp [buildOutputName_eq]

theorem lastDotSplit_append_zst {name : Name} :
    lastDotSplit (name ++ ".zst".data) = some (name, "zst".data) := by
  rw [dot_zst_data]
  exact lastDotSplit_append (by decide)

theorem hasZstExt_append_zst {name : Name} (h : name ≠ []) :
    hasZstExt (name ++ ".zst".data) = true := by
  unfold hasZstExt extensionOf
  rw [lastDotSplit_append_zst]
  cases hn : name with
  | nil => exact absurd hn h
  | cons a as => simp

theorem fileStemOf_append_zst {name : Name} (h : name ≠ []) :
    fileStemOf (name ++ ".zst".data) = name := by
  unfold fileStemOf
  rw [lastDotSplit_append_zst]
  cases hn : name with
  | nil => exact absurd hn h
  | cons a as => simp

theorem suffix_append_right {a b t : List Char} :
    (a ++ t) <:+ (b ++ t) ↔ a <:+ b := by
  constructor
  · rintro ⟨s, hs⟩
    rw [← List.append_assoc] at hs
    exact ⟨s, List.append_cancel_right hs⟩
  · rintro ⟨s, hs⟩
    exact ⟨s, by rw [← List.append_assoc, hs]⟩

theorem isTarPath_concat_zst {dir : FilePath'} {name : Name}
    (h : ¬ (".tar".data <:+ name)) :
    isTarPath (dir ++ [name ++ ".zst".data]) = false := by
  unfold isTarPath
  rw [List.getLast?_concat]
  simp only [Option.getD_some]
  have : (".tar.zst".data <:+ name ++ ".zst".data) ↔ (".tar".data <:+ name) := by
    have he : ".tar.zst".data = ".tar".data ++ ".zst".data := rfl
    rw [he]
    exact suffix_append_right
  simp [this, h]

theorem append_zst_ne_self (name : Name) : name ≠ name ++ ".zst".data := by
  intro h
  have := congrArg List.length h
  simp at this

theorem concat_ne_of_last_ne {dir : FilePath'} {a b : Name} (h : a ≠ b) :
    dir ++ [a] ≠ dir ++ [b] := by
  intro he
  exact h (by simpa using List.append_cancel_left he)

/-! ### Execution lemmas for the engine operations -/

theorem compress_file_run {c : Codec} {fs : FS} {p out : FilePath'} {data : List Nat}
    {o : CompressOptions}
    (h1 : lookupFile fs.files p = some data)
    (h2 : resolveCompressOut fs p o.output_path = some out)
    (h3 : (fs.pathExists out && !o.force) = false)
    (h5 : fs.isDir out = false)
    (h4 : fs.isDir out.dropLast = true) :
    compress_file c fs p o =
      ⟨fs.setFile out (c.comp o.level data),
        cumSums 0 (chunkSizes data.length (optimal_buffer_size data.length)),
        .ok ⟨data.length, (c.comp o.level data).length⟩⟩ := by
  have hex : fs.pathExists p = true := FS.pathExists_of_isFile (FS.isFile_of_lookup h1)
  have hpd : fs.pathExists out.dropLast = true := FS.pathExists_of_isDir h4
  unfold compress_file mkdirIfMissing
  simp only [hex, h2, h3, hpd, h4, h5, h1, Bool.not_true, Bool.false_eq_true, if_false,
    if_true, Bool.not_false]

theorem compress_file_run_mkdir {c : Codec} {fs fs1 : FS} {p out : FilePath'}
    {data : List Nat} {o : CompressOptions}
    (h1 : lookupFile fs.files p = some data)
    (h2 : resolveCompressOut fs p o.output_path = some out)
    (h3 : fs.pathExists out = false)
    (h4 : fs.pathExists out.dropLast = false)
    (h5 : mkdirAll fs out.dropLast = some fs1) :
    compress_file c fs p o =
      ⟨fs1.setFile out (c.comp o.level data),
        cumSums 0 (chunkSizes data.length (optimal_buffer_size data.length)),
        .ok ⟨data.length, (c.comp o.level data).length⟩⟩ := by
  have hex : fs.pathExists p = true := FS.pathExists_of_isFile (FS.isFile_of_lookup h1)
  have hne : out ≠ [] := FS.ne_nil_of_not_exists h3
  have hlen : out.dropLast.length < out.length := by
    rw [List.length_dropLast]
    have : 0 < out.length := List.length_pos.mpr hne
    omega
  have hd1 : fs1.isDir out.dropLast = true := mkdirAll_isDir_self h5
  have hd2 : fs1.isDir out = false :=
    mkdirAll_isDir_longer h5 hlen (FS.isDir_false_of_not_exists h3)
  have hl1 : lookupFile fs1.files p = some data := by rw [mkdirAll_lookup h5]; exact h1
  unfold compress_file mkdirIfMissing
  simp only [hex, h2, h3, h4, h5, hd1, hd2, hl1, Bool.not_true, Bool.false_and,
    Bool.false_eq_true, if_false, if_true, Bool.not_false]

theorem filesUnder_congr {fs fs' : FS} (h : fs'.files = fs.files) (b : FilePath') :
    filesUnder fs' b = filesUnder fs b := by
  unfold filesUnder
  rw [h]

theorem calculate_dir_size_congr {fs fs' : FS} (h : fs'.files = fs.files)
    (b : FilePath') : calculate_dir_size fs' b = calculate_dir_size fs b := by
  unfold calculate_dir_size
  rw [filesUnder_congr h]

theorem compress_directory_run {c : Codec} {fs : FS} {dirp out : FilePath'}
    {o : CompressOptions}
    (hd : fs.isDir dirp = true)
    (hres : resolveDirOut fs dirp o.output_path = out)
    (h3 : (fs.pathExists out && !o.force) = false)
    (h5 : fs.isDir out = false)
    (h4 : fs.isDir out.dropLast = true) :
    compress_directory c fs dirp o =
      ⟨fs.setFile out (c.comp o.level (tarBuild (filesUnder fs dirp))),
        cumSums 0 ((filesUnder fs dirp).map fun e => e.2.length),
        .ok ⟨calculate_dir_size fs dirp,
          (c.comp o.level (tarBuild (filesUnder fs dirp))).length⟩⟩ := by
  have hex : fs.pathExists dirp = true := FS.pathExists_of_isDir hd
  have hpd : fs.pathExists out.dropLast = true := FS.pathExists_of_isDir h4
  unfold compress_directory mkdirIfMissing
  simp only [hex, hd, hres, h3, hpd, h4, h5, Bool.not_true, Bool.false_eq_true,
    if_false, if_true, Bool.not_false]

theorem compress_directory_run_mkdir {c : Codec} {fs fs1 : FS} {dirp out : FilePath'}
    {o : CompressOptions}
    (hd : fs.isDir dirp = true)
    (hres : resolveDirOut fs dirp o.output_path = out)
    (h3 : fs.pathExists out = false)
    (h4 : fs.pathExists out.dropLast = false)
    (h5 : mkdirAll fs out.dropLast = some fs1) :
    compress_directory c fs dirp o =
      ⟨fs1.setFile out (c.comp o.level (tarBuild (filesUnder fs dirp))),
        cumSums 0 ((filesUnder fs dirp).map fun e => e.2.length),
        .ok ⟨calculate_dir_size fs dirp,
          (c.comp o.level (tarBuild (filesUnder fs dirp))).length⟩⟩ := by
  have hex : fs.pathExists dirp = true := FS.pathExists_of_isDir hd
  have hne : out ≠ [] := FS.ne_nil_of_not_exists h3
  have hlen : out.dropLast.length < out.length := by
    rw [List.length_dropLast]
    have : 0 < out.length := List.length_pos.mpr hne
    omega
  have hd1 : fs1.isDir out.dropLast = true := mkdirAll_isDir_self h5
  have hd2 : fs1.isDir out = false :=
    mkdirAll_isDir_longer h5 hlen (FS.isDir_false_of_not_exists h3)
  have hfu : filesUnder fs1 dirp = filesUnder fs dirp :=
    filesUnder_congr (mkdirAll_files h5) dirp
  have hsz : calculate_dir_size fs1 dirp = calculate_dir_size fs dirp :=
    calculate_dir_size_congr (mkdirAll_files h5) dirp
  unfold compress_directory mkdirIfMissing
  simp only [hex, hd, hres, h3, h4, h5, hd1, hd2, hfu, hsz, Bool.not_true,
    Bool.false_and, Bool.false_eq_true, if_false, if_true, Bool.not_false]

theorem compress_multiple_run {c : Codec} {fs : FS} {input_files : List FilePath'}
    {out : FilePath'} {o : CompressOptions} {es : List (FilePath' × List Nat)}
    (hin : (input_files.any fun f => !fs.pathExists f) = false)
    (h3 : (fs.pathExists out && !o.force) = false)
    (h4 : fs.isDir out.dropLast = true)
    (h5 : fs.isDir out = false)
    (hcol : collectEntries fs input_files = some es) :
    compress_multiple_files c fs input_files out o =
      ⟨fs.setFile out (c.comp o.level (tarBuild es)),
        cumSums 0 (es.map fun e => e.2.length),
        .ok ⟨(es.map fun e => e.2.length).sum, (c.comp o.level (tarBuild es)).length⟩⟩ := by
  unfold compress_multiple_files
  simp only [hin, h3, h4, h5, hcol, Bool.not_true, Bool.false_eq_true, if_false,
    if_true, Bool.not_false]

theorem decompress_single_run {c : Codec} {fs : FS} {input out : FilePath'}
    {iname : Name} {bytes plain : List Nat} {o : DecompressOptions}
    (h0 : input.getLast? = some iname)
    (hres : resolveSingleOut fs input o.output_path (fileStemOf iname) = out)
    (h3 : (fs.pathExists out && !o.force) = false)
    (h4 : fs.isDir out.dropLast = true)
    (h1 : lookupFile fs.files input = some bytes)
    (h5 : fs.isDir out = false)
    (h6 : c.decomp bytes = some plain) :
    decompress_single_file c fs input o =
      ⟨fs.setFile out plain,
        (throttledPairs bytes.length 0 0
          (chunkSizes plain.length (optimal_buffer_size bytes.length))).map Prod.snd
          ++ [bytes.length],
        .ok ⟨bytes.length, plain.length⟩⟩ := by
  have hpd : fs.pathExists out.dropLast = true := FS.pathExists_of_isDir h4
  unfold decompress_single_file mkdirIfMissing
  simp only [h0, hres, h3, hpd, h4, h1, h5, h6, Bool.not_true, Bool.false_eq_true,
    if_false, if_true, Bool.not_false]

theorem decompress_single_run_mkdir {c : Codec} {fs fs1 : FS} {input out : FilePath'}
    {iname : Name} {bytes plain : List Nat} {o : DecompressOptions}
    (h0 : input.getLast? = some iname)
    (hres : resolveSingleOut fs input o.output_path (fileStemOf iname) = out)
    (h3 : fs.pathExists out = false)
    (h4 : fs.pathExists out.dropLast = false)
    (h5 : mkdirAll fs out.dropLast = some fs1)
    (h1 : lookupFile fs.files input = some bytes)
    (h6 : c.decomp bytes = some plain) :
    decompress_single_file c fs input o =
      ⟨fs1.setFile out plain,
        (throttledPairs bytes.length 0 0
          (chunkSizes plain.length (optimal_buffer_size bytes.length))).map Prod.snd
          ++ [bytes.length],
        .ok ⟨bytes.length, plain.length⟩⟩ := by
  have hne : out ≠ [] := FS.ne_nil_of_not_exists h3
  have hlen : out.dropLast.length < out.length := by
    rw [List.length_dropLast]
    have : 0 < out.length := List.length_pos.mpr hne
    omega
  have hd1 : fs1.isDir out.dropLast = true := mkdirAll_isDir_self h5
  have hd2 : fs1.isDir out = false :=
    mkdirAll_isDir_longer h5 hlen (FS.isDir_false_of_not_exists h3)
  have hl1 : lookupFile fs1.files input = some bytes := by
    rw [mkdirAll_lookup h5]; exact h1
  unfold decompress_single_file mkdirIfMissing
  simp only [h0, hres, h3, h4, h5, hd1, hd2, hl1, h6, Bool.not_true, Bool.false_and,
    Bool.false_eq_true, if_false, if_true, Bool.not_false]

theorem decompress_tar_run_mkdir {c : Codec} {fs fs1 fs2 : FS} {input out : FilePath'}
    {iname : Name} {bytes plain : List Nat} {entries : List (FilePath' × List Nat)}
    {o : DecompressOptions}
    (h0 : input.getLast? = some iname)
    (hop : o.output_path = none)
    (hout : input.dropLast ++ [fileStemOf (fileStemOf iname)] = out)
    (h3 : fs.pathExists out = false)
    (h5 : mkdirAll fs out = some fs1)
    (h1 : lookupFile fs.files input = some bytes)
    (h6 : c.decomp bytes = some plain)
    (h7 : tarParse plain = some entries)
    (h8 : extractAll out fs1 entries = some fs2) :
    decompress_tar_zst c fs input o =
      ⟨fs2, cumSums 0 (entries.map fun _ => 1),
        .ok ⟨bytes.length, (entries.map fun e => e.2.length).sum⟩⟩ := by
  have hd0 : fs.isDir out = false := FS.isDir_false_of_not_exists h3
  have hl1 : lookupFile fs1.files input = some bytes := by
    rw [mkdirAll_files h5]; exact h1
  unfold decompress_tar_zst
  simp only [h0, hop, hout, h3, hd0, h5, hl1, h6, h7, h8, Bool.not_true,
    Bool.false_and, Bool.false_eq_true, if_false, if_true, Bool.not_false]

/-! ### Progress-reporting lemmas -/

/-- Progress values within one invocation are non-decreasing. -/
abbrev MonoEvents (l : List Nat) : Prop := List.Chain' (· ≤ ·) l

/-- The throttle contract of the decompression/verification loop:
starting from `last` bytes at the previous report, each reported pair
`(t, v)` fires only once the decompressed total `t` has grown by at
least 1 MiB since the previous report, and carries the estimate
`min (t / 3) size`. -/
def ThrottleOK (size : Nat) : Nat → List (Nat × Nat) → Prop
  | _, [] => True
  | last, (t, v) :: rest =>
    last + 1024 * 1024 ≤ t ∧ v = min (t / 3) size ∧ ThrottleOK size t rest

theorem throttledPairs_ok (size : Nat) :
    ∀ (sizes : List Nat) (total last : Nat), last ≤ total →
      ThrottleOK size last (throttledPairs size total last sizes) := by
  intro sizes
  induction sizes with
  | nil => intro total last h; trivial
  | cons sz rest ih =>
    intro total last h
    unfold throttledPairs
    split
    · rename_i hfire
      refine ⟨by omega, rfl, ih (total + sz) (total + sz) le_rfl⟩
    · exact ih (total + sz) last (by omega)

theorem cumSums_head_le {xs : List Nat} {acc v : Nat}
    (h : (cumSums acc xs).head? = some v) : acc ≤ v := by
  cases xs with
  | nil => cases h
  | cons x rest =>
    unfold cumSums at h
    simp at h
    omega

theorem cumSums_chain (xs : List Nat) (acc : Nat) :
    List.Chain' (· ≤ ·) (cumSums acc xs) := by
  induction xs generalizing acc with
  | nil => simp [cumSums]
  | cons x rest ih =>
    unfold cumSums
    rw [List.chain'_cons']
    exact ⟨fun y hy => cumSums_head_le hy, ih (acc + x)⟩

theorem throttle_chain {size : Nat} :
    ∀ {ps : List (Nat × Nat)} {last : Nat}, ThrottleOK size last ps →
      List.Chain' (· ≤ ·) (ps.map Prod.snd) := by
  intro ps
  induction ps with
  | nil => intro last _; simp
  | cons p rest ih =>
    intro last h
    obtain ⟨h1, h2, h3⟩ := h
    rw [List.map_cons, List.chain'_cons']
    refine ⟨?_, ih h3⟩
    intro y hy
    cases rest with
    | nil => cases hy
    | cons q qs =>
      obtain ⟨g1, g2, _⟩ := h3
      simp at hy
      subst hy
      rw [h2, g2]
      exact min_le_min (Nat.div_le_div_right (by omega)) le_rfl

theorem throttle_le {size : Nat} :
    ∀ {ps : List (Nat × Nat)} {last : Nat}, ThrottleOK size last ps →
      ∀ v ∈ ps.map Prod.snd, v ≤ size := by
  intro ps
  induction ps with
  | nil => intro last _ v hv; cases hv
  | cons p rest ih =>
    intro last h v hv
    obtain ⟨h1, h2, h3⟩ := h
    rcases List.mem_cons.mp hv with h4 | h4
    · rw [h4, h2]; exact min_le_right _ _
    · exact ih h3 v h4

theorem chain_le_append_last {l : List Nat} {s : Nat}
    (h : List.Chain' (· ≤ ·) l) (hb : ∀ x ∈ l, x ≤ s) :
    List.Chain' (· ≤ ·) (l ++ [s]) := by
  rw [List.chain'_append]
  refine ⟨h, List.chain'_singleton s, ?_⟩
  intro x hx y hy
  simp at hy
  subst hy
  exact hb x (List.mem_of_getLast?_eq_some hx)

/-- The event list of the throttled decompression loop, including the
final exact-size callback, is monotone. -/
theorem throttle_events_mono {size n bs : Nat} :
    MonoEvents ((throttledPairs size 0 0 (chunkSizes n bs)).map Prod.snd ++ [size]) := by
  have hok := throttledPairs_ok size (chunkSizes n bs) 0 0 le_rfl
  exact chain_le_append_last (throttle_chain hok) (throttle_le hok)

/-! ### Claim C8 -/

/-- C8: `should_use_parallel o s` holds exactly when `o.parallel` is set
or `o.auto_parallel` is set and `s` is at least the 1 MiB
`AUTO_PARALLEL_THRESHOLD`; `CompressOptions::new` enables auto-parallel
by default; an explicit `parallel = true` wins for every size. -/
theorem c8_should_use_parallel_spec :
    (∀ (o : CompressOptions) (s : Nat),
      o.should_use_parallel s = true ↔
        (o.parallel = true ∨ (o.auto_parallel = true ∧ AUTO_PARALLEL_THRESHOLD ≤ s))) ∧
    (∀ level : Int, (CompressOptions.new level).auto_parallel = true) ∧
    (∀ (o : CompressOptions) (s : Nat), o.parallel = true →
      o.should_use_parallel s = true) := by
  refine ⟨?_, fun _ => rfl, ?_⟩
  · intro o s
    simp [CompressOptions.should_use_parallel, ge_iff_le]
  · intro o s h
    simp [CompressOptions.should_use_parallel, h]

/-- Witness for C8 at the 1 MiB boundary and with explicit parallel. -/
theorem c8_witness :
    (CompressOptions.new 3).should_use_parallel (1024 * 1024) = true ∧
    ({ CompressOptions.new 3 with parallel := true } : CompressOptions).should_use_parallel 0 = true :=
  ⟨(c8_should_use_parallel_spec.1 (CompressOptions.new 3) (1024 * 1024)).mpr
      (Or.inr ⟨rfl, by decide⟩),
    c8_should_use_parallel_spec.2.2 _ 0 rfl⟩

/-! ### Claim C9 -/

/-- C9: the buffer-size policy returns the 1 MiB buffer for every size
at or above the 10 MiB threshold (inclusive) and the 256 KiB buffer
below it; it is a monotone step function with the stated boundary. -/
theorem c9_buffer_size_policy :
    (∀ s, LARGE_FILE_THRESHOLD ≤ s → optimal_buffer_size s = BUFFER_SIZE_LARGE) ∧
    (∀ s, s < LARGE_FILE_THRESHOLD → optimal_buffer_size s = BUFFER_SIZE_SMALL) ∧
    (∀ a b, a ≤ b → optimal_buffer_size a ≤ optimal_buffer_size b) ∧
    optimal_buffer_size (10 * 1024 * 1024 - 1) = BUFFER_SIZE_SMALL ∧
    optimal_buffer_size (10 * 1024 * 1024) = BUFFER_SIZE_LARGE := by
  refine ⟨?_, ?_, ?_, by decide, by decide⟩
  · intro s h
    simp [optimal_buffer_size, ge_iff_le, h]
  · intro s h
    rw [optimal_buffer_size, if_neg (by omega)]
  · intro a b hab
    unfold optimal_buffer_size LARGE_FILE_THRESHOLD BUFFER_SIZE_LARGE BUFFER_SIZE_SMALL
    split_ifs <;> omega

/-- Witness for C9 at the threshold boundary. -/
theorem c9_witness :
    optimal_buffer_size (10 * 1024 * 1024) = BUFFER_SIZE_LARGE ∧
    optimal_buffer_size 1024 = BUFFER_SIZE_SMALL ∧
    optimal_buffer_size 1024 ≤ optimal_buffer_size (10 * 1024 * 1024) :=
  ⟨c9_buffer_size_policy.1 (10 * 1024 * 1024) (by decide),
    c9_buffer_size_policy.2.1 1024 (by decide),
    c9_buffer_size_policy.2.2.1 1024 (10 * 1024 * 1024) (by decide)⟩

/-! ### Claim C10 -/

/-- C10: the derived `Default` for `CompressOptions` diverges from
`CompressOptions::new`: it has `auto_parallel = false` and `level = 0`
(outside `1..=21`), its `parallel` is `false`, so a default-constructed
value never enables parallelism for any size, while `new` always sets
`auto_parallel = true`. -/
theorem c10_derived_default_divergence :
    CompressOptions.derivedDefault.auto_parallel = false ∧
    CompressOptions.derivedDefault.level = 0 ∧
    (CompressOptions.derivedDefault.level < 1 ∨
      21 < CompressOptions.derivedDefault.level) ∧
    CompressOptions.derivedDefault.parallel = false ∧
    (∀ s : Nat, CompressOptions.derivedDefault.should_use_parallel s = false) ∧
    (∀ level : Int, (CompressOptions.new level).auto_parallel = true) :=
  ⟨rfl, rfl, Or.inl (by decide), rfl, fun _ => rfl, fun _ => rfl⟩

/-- Witness for C10 at a concrete size and level. -/
theorem c10_witness :
    CompressOptions.derivedDefault.should_use_parallel 123456789 = false ∧
    (CompressOptions.new 9).auto_parallel = true :=
  ⟨c10_derived_default_divergence.2.2.2.2.1 123456789,
    c10_derived_default_divergence.2.2.2.2.2 9⟩

/-! ### Claim C2 -/

theorem parse_level_ok {s : List Char} {v : Int} (h : parse_level s = some v) :
    1 ≤ v ∧ v ≤ 21 := by
  unfold parse_level at h
  revert h
  cases hp : parseI32 s with
  | none => intro h; cases h
  | some w =>
    intro h
    change (if 1 ≤ w ∧ w ≤ 21 then some w else none) = some v at h
    by_cases hb : 1 ≤ w ∧ w ≤ 21
    · rw [if_pos hb] at h
      injection h with h
      rw [← h]
      exact hb
    · rw [if_neg hb] at h
      cases h

/-- C2 (amended): level validation lives in `parse_level`, which
succeeds exactly on integers in `1..=21`; `CompressOptions::new` stores
the level unvalidated, so options built from a `parse_level` result
carry a level in range, and no out-of-range value can come out of
`parse_level`. -/
theorem c2_level_validated_by_parse_level :
    (∀ (s : List Char) (v : Int), parse_level s = some v →
      (1 ≤ v ∧ v ≤ 21) ∧ (CompressOptions.new v).level = v) ∧
    (∀ (s : List Char) (v : Int), (v < 1 ∨ 21 < v) → parse_level s ≠ some v) := by
  constructor
  · intro s v h
    exact ⟨parse_level_ok h, rfl⟩
  · intro s v hv h
    have := parse_level_ok h
    omega

/-- Witness for C2 on the strings "7" and "22". -/
theorem c2_witness :
    ((1 ≤ (7 : Int) ∧ (7 : Int) ≤ 21) ∧ (CompressOptions.new 7).level = 7) ∧
    parse_level "22".data ≠ some 22 :=
  ⟨c2_level_validated_by_parse_level.1 "7".data 7 (by decide),
    c2_level_validated_by_parse_level.2 "22".data 22 (by decide)⟩

/-- C2 counterexample: `CompressOptions::new` is total and accepts 22,
producing an options value whose level lies outside `1..=21`, so
construction with an out-of-range level does succeed. -/
theorem c2_new_accepts_out_of_range :
    (CompressOptions.new 22).level = 22 ∧ ((22 : Int) < 1 ∨ 21 < (22 : Int)) :=
  ⟨rfl, by decide⟩

/-! ### Dispatcher lemmas -/

theorem decompress_file_invalid_ext {c : Codec} {fs : FS} {p : FilePath'}
    {o : DecompressOptions} (h1 : fs.pathExists p = true)
    (h2 : hasZstExt (p.getLast?.getD []) = false) :
    decompress_file c fs p o = ⟨fs, [], .error .invalidInput⟩ := by
  unfold decompress_file
  simp [h1, h2]

theorem decompress_file_to_tar {c : Codec} {fs : FS} {p : FilePath'}
    {o : DecompressOptions} (h1 : fs.pathExists p = true)
    (h2 : hasZstExt (p.getLast?.getD []) = true) (h3 : isTarPath p = true) :
    decompress_file c fs p o = decompress_tar_zst c fs p o := by
  unfold decompress_file
  simp [h1, h2, h3]

theorem decompress_file_to_single {c : Codec} {fs : FS} {p : FilePath'}
    {o : DecompressOptions} (h1 : fs.pathExists p = true)
    (h2 : hasZstExt (p.getLast?.getD []) = true) (h3 : isTarPath p = false) :
    decompress_file c fs p o = decompress_single_file c fs p o := by
  unfold decompress_file
  simp [h1, h2, h3]

theorem verify_zst_invalid_ext {c : Codec} {fs : FS} {p : FilePath'}
    (h1 : fs.pathExists p = true) (h2 : hasZstExt (p.getLast?.getD []) = false) :
    verify_zst c fs p = ⟨fs, [], .error .invalidInput⟩ := by
  unfold verify_zst
  simp [h1, h2]

/-! ### Claim C4 -/

/-- C4 (amended): for every existing input, a non-`.zst` extension is
rejected as `InvalidInput` with no filesystem change and no progress;
an existing `.zst` input ending in `.tar.zst` dispatches to archive
extraction and any other `.zst` input to single-file decompression;
`verify_zst` rejects a non-`.zst` extension of an existing input the
same way.  (A missing input yields `NotFound` first.) -/
theorem c4_extension_dispatch :
    (∀ (c : Codec) (fs : FS) (p : FilePath') (o : DecompressOptions),
      fs.pathExists p = true → hasZstExt (p.getLast?.getD []) = false →
      decompress_file c fs p o = ⟨fs, [], .error .invalidInput⟩) ∧
    (∀ (c : Codec) (fs : FS) (p : FilePath') (o : DecompressOptions),
      fs.pathExists p = true → hasZstExt (p.getLast?.getD []) = true →
      isTarPath p = true →
      decompress_file c fs p o = decompress_tar_zst c fs p o) ∧
    (∀ (c : Codec) (fs : FS) (p : FilePath') (o : DecompressOptions),
      fs.pathExists p = true → hasZstExt (p.getLast?.getD []) = true →
      isTarPath p = false →
      decompress_file c fs p o = decompress_single_file c fs p o) ∧
    (∀ (c : Codec) (fs : FS) (p : FilePath'),
      fs.pathExists p = true → hasZstExt (p.getLast?.getD []) = false →
      verify_zst c fs p = ⟨fs, [], .error .invalidInput⟩) := by
  exact ⟨fun c fs p o h1 h2 => decompress_file_invalid_ext h1 h2,
    fun c fs p o h1 h2 h3 => decompress_file_to_tar h1 h2 h3,
    fun c fs p o h1 h2 h3 => decompress_file_to_single h1 h2 h3,
    fun c fs p h1 h2 => verify_zst_invalid_ext h1 h2⟩

/-- Witness for C4 on concrete paths of each shape. -/
theorem c4_witness :
    decompress_file idCodec ⟨[(["f.txt".data], [1])], []⟩ ["f.txt".data] ⟨false, none⟩
        = ⟨⟨[(["f.txt".data], [1])], []⟩, [], .error .invalidInput⟩ ∧
    decompress_file idCodec ⟨[(["a.tar.zst".data], [1])], []⟩ ["a.tar.zst".data] ⟨false, none⟩
        = decompress_tar_zst idCodec ⟨[(["a.tar.zst".data], [1])], []⟩ ["a.tar.zst".data] ⟨false, none⟩ ∧
    decompress_file idCodec ⟨[(["a.zst".data], [1])], []⟩ ["a.zst".data] ⟨false, none⟩
        = decompress_single_file idCodec ⟨[(["a.zst".data], [1])], []⟩ ["a.zst".data] ⟨false, none⟩ ∧
    verify_zst idCodec ⟨[(["f.txt".data], [1])], []⟩ ["f.txt".data]
        = ⟨⟨[(["f.txt".data], [1])], []⟩, [], .error .invalidInput⟩ :=
  ⟨c4_extension_dispatch.1 idCodec _ _ _ (by decide) (by decide),
    c4_extension_dispatch.2.1 idCodec _ _ _ (by decide) (by decide) (by decide),
    c4_extension_dispatch.2.2.1 idCodec _ _ _ (by decide) (by decide) (by decide),
    c4_extension_dispatch.2.2.2 idCodec _ _ (by decide) (by decide)⟩

/-- C4 counterexample: a non-existent path with a non-`.zst` extension
is answered with `NotFound`, not `InvalidInput` — the existence check
(a filesystem query) precedes the extension check. -/
theorem c4_missing_path_yields_notfound :
    (decompress_file idCodec ⟨[], []⟩ ["missing.txt".data] ⟨false, none⟩).result
        = .error .notFound ∧ Err.notFound ≠ Err.invalidInput :=
  ⟨rfl, by decide⟩

/-! ### Claim C5 -/

/-- C5: for each compression operation, an existing resolved output
without `force` aborts with `AlreadyExists` before any write (the
filesystem and the progress stream are returned untouched); with
`force` set and the usual preconditions the operation succeeds and
overwrites the existing output file with the new compressed bytes. -/
theorem c5_existing_output_guard :
    (∀ (c : Codec) (fs : FS) (p : FilePath') (o : CompressOptions) (out : FilePath'),
      fs.pathExists p = true → resolveCompressOut fs p o.output_path = some out →
      fs.pathExists out = true → o.force = false →
      compress_file c fs p o = ⟨fs, [], .error .alreadyExists⟩) ∧
    (∀ (c : Codec) (fs : FS) (p : FilePath') (o : CompressOptions) (out : FilePath')
        (data : List Nat),
      o.force = true → lookupFile fs.files p = some data →
      resolveCompressOut fs p o.output_path = some out →
      fs.isFile out = true → fs.isDir out = false → fs.isDir out.dropLast = true →
      (compress_file c fs p o).result = .ok ⟨data.length, (c.comp o.level data).length⟩ ∧
      lookupFile (compress_file c fs p o).fs.files out = some (c.comp o.level data)) ∧
    (∀ (c : Codec) (fs : FS) (d : FilePath') (o : CompressOptions),
      fs.isDir d = true → fs.pathExists (resolveDirOut fs d o.output_path) = true →
      o.force = false →
      compress_directory c fs d o = ⟨fs, [], .error .alreadyExists⟩) ∧
    (∀ (c : Codec) (fs : FS) (d : FilePath') (o : CompressOptions) (out : FilePath'),
      o.force = true → fs.isDir d = true → resolveDirOut fs d o.output_path = out →
      fs.isFile out = true → fs.isDir out = false → fs.isDir out.dropLast = true →
      (compress_directory c fs d o).result
          = .ok ⟨calculate_dir_size fs d, (c.comp o.level (tarBuild (filesUnder fs d))).length⟩ ∧
      lookupFile (compress_directory c fs d o).fs.files out
          = some (c.comp o.level (tarBuild (filesUnder fs d)))) ∧
    (∀ (c : Codec) (fs : FS) (ins : List FilePath') (out : FilePath') (o : CompressOptions),
      (ins.any fun f => !fs.pathExists f) = false →
      fs.pathExists out = true → o.force = false →
      compress_multiple_files c fs ins out o = ⟨fs, [], .error .alreadyExists⟩) ∧
    (∀ (c : Codec) (fs : FS) (ins : List FilePath') (out : FilePath') (o : CompressOptions)
        (es : List (FilePath' × List Nat)),
      o.force = true → (ins.any fun f => !fs.pathExists f) = false →
      collectEntries fs ins = some es →
      fs.isFile out = true → fs.isDir out = false → fs.isDir out.dropLast = true →
      (compress_multiple_files c fs ins out o).result
          = .ok ⟨(es.map fun e => e.2.length).sum, (c.comp o.level (tarBuild es)).length⟩ ∧
      lookupFile (compress_multiple_files c fs ins out o).fs.files out
          = some (c.comp o.level (tarBuild es))) := by
  refine ⟨?_, ?_, ?_, ?_, ?_, ?_⟩
  · intro c fs p o out h1 h2 h3 h4
    unfold compress_file
    simp [h1, h2, h3, h4]
  · intro c fs p o out data hf h1 h2 hw h5 h4
    rw [compress_file_run h1 h2 (by rw [hf]; simp) h5 h4]
    exact ⟨rfl, lookupFile_setFile_self _ _ _⟩
  · intro c fs d o h1 h2 h3
    unfold compress_directory
    simp [FS.pathExists_of_isDir h1, h1, h2, h3]
  · intro c fs d o out hf h1 h2 hw h5 h4
    rw [compress_directory_run h1 h2 (by rw [hf]; simp) h5 h4]
    exact ⟨rfl, lookupFile_setFile_self _ _ _⟩
  · intro c fs ins out o h1 h2 h3
    unfold compress_multiple_files
    simp [h1, h2, h3]
  · intro c fs ins out o es hf h1 hcol hw h5 h4
    rw [compress_multiple_run h1 (by rw [hf]; simp) h4 h5 hcol]
    exact ⟨rfl, lookupFile_setFile_self _ _ _⟩

/-- Witness for C5: concrete guarded and forced runs of all three
compression operations. -/
theorem c5_witness :
    compress_file idCodec ⟨[(["a.txt".data], [1]), (["a.txt.zst".data], [9])], []⟩
        ["a.txt".data] (CompressOptions.new 3)
        = ⟨⟨[(["a.txt".data], [1]), (["a.txt.zst".data], [9])], []⟩, [], .error .alreadyExists⟩ ∧
    (compress_file idCodec ⟨[(["a.txt".data], [1]), (["a.txt.zst".data], [9])], []⟩
        ["a.txt".data] { CompressOptions.new 3 with force := true }).result
        = .ok ⟨1, 1⟩ ∧
    compress_directory idCodec ⟨[(["d.tar.zst".data], [9])], [["d".data]]⟩
        ["d".data] (CompressOptions.new 3)
        = ⟨⟨[(["d.tar.zst".data], [9])], [["d".data]]⟩, [], .error .alreadyExists⟩ ∧
    (compress_directory idCodec ⟨[(["d.tar.zst".data], [9])], [["d".data]]⟩
        ["d".data] { CompressOptions.new 3 with force := true }).result
        = .ok ⟨0, (tarBuild []).length⟩ ∧
    compress_multiple_files idCodec ⟨[(["a.txt".data], [1]), (["m.tar.zst".data], [9])], []⟩
        [["a.txt".data]] ["m.tar.zst".data] (CompressOptions.new 3)
        = ⟨⟨[(["a.txt".data], [1]), (["m.tar.zst".data], [9])], []⟩, [], .error .alreadyExists⟩ ∧
    (compress_multiple_files idCodec ⟨[(["a.txt".data], [1]), (["m.tar.zst".data], [9])], []⟩
        [["a.txt".data]] ["m.tar.zst".data] { CompressOptions.new 3 with force := true }).result
        = .ok ⟨1, (tarBuild [(["a.txt".data], [1])]).length⟩ :=
  ⟨c5_existing_output_guard.1 idCodec _ _ _ ["a.txt.zst".data] (by decide) (by decide)
      (by decide) rfl,
    (c5_existing_output_guard.2.1 idCodec _ _ _ ["a.txt.zst".data] [1] rfl (by decide)
      (by decide) (by decide) (by decide) (by decide)).1,
    c5_existing_output_guard.2.2.1 idCodec _ _ _ (by decide) (by decide) rfl,
    (c5_existing_output_guard.2.2.2.1 idCodec _ _ _ ["d.tar.zst".data] rfl (by decide)
      (by decide) (by decide) (by decide) (by decide)).1,
    c5_existing_output_guard.2.2.2.2.1 idCodec _ _ _ _ (by decide) (by decide) rfl,
    (c5_existing_output_guard.2.2.2.2.2 idCodec _ _ ["m.tar.zst".data] _
      [(["a.txt".data], [1])] rfl (by decide) (by decide) (by decide) (by decide)
      (by decide)).1⟩

/-! ### Claim C3 -/

/-- C3 (amended): single-file compression, directory compression and
both decompression paths create the absent parent-directory chain of
their resolved output before writing it (the run succeeds, the parent
is a directory afterwards and the output is in place); multi-file
compression does not create parent directories (see the
counterexample). -/
theorem c3_parent_dirs_created :
    (∀ (c : Codec) (fs fs1 : FS) (p out : FilePath') (data : List Nat)
        (o : CompressOptions),
      lookupFile fs.files p = some data →
      resolveCompressOut fs p o.output_path = some out →
      fs.pathExists out = false → fs.pathExists out.dropLast = false →
      mkdirAll fs out.dropLast = some fs1 →
      (compress_file c fs p o).result = .ok ⟨data.length, (c.comp o.level data).length⟩ ∧
      (compress_file c fs p o).fs.isDir out.dropLast = true ∧
      lookupFile (compress_file c fs p o).fs.files out = some (c.comp o.level data)) ∧
    (∀ (c : Codec) (fs fs1 : FS) (d out : FilePath') (o : CompressOptions),
      fs.isDir d = true → resolveDirOut fs d o.output_path = out →
      fs.pathExists out = false → fs.pathExists out.dropLast = false →
      mkdirAll fs out.dropLast = some fs1 →
      (compress_directory c fs d o).result
          = .ok ⟨calculate_dir_size fs d, (c.comp o.level (tarBuild (filesUnder fs d))).length⟩ ∧
      (compress_directory c fs d o).fs.isDir out.dropLast = true ∧
      lookupFile (compress_directory c fs d o).fs.files out
          = some (c.comp o.level (tarBuild (filesUnder fs d)))) ∧
    (∀ (c : Codec) (fs fs1 : FS) (input out : FilePath') (iname : Name)
        (bytes plain : List Nat) (o : DecompressOptions),
      input.getLast? = some iname →
      resolveSingleOut fs input o.output_path (fileStemOf iname) = out →
      fs.pathExists out = false → fs.pathExists out.dropLast = false →
      mkdirAll fs out.dropLast = some fs1 →
      lookupFile fs.files input = some bytes → c.decomp bytes = some plain →
      (decompress_single_file c fs input o).result = .ok ⟨bytes.length, plain.length⟩ ∧
      (decompress_single_file c fs input o).fs.isDir out.dropLast = true ∧
      lookupFile (decompress_single_file c fs input o).fs.files out = some plain) ∧
    (∀ (c : Codec) (fs fs1 fs2 : FS) (input out : FilePath') (iname : Name)
        (bytes plain : List Nat) (entries : List (FilePath' × List Nat))
        (o : DecompressOptions),
      input.getLast? = some iname → o.output_path = none →
      input.dropLast ++ [fileStemOf (fileStemOf iname)] = out →
      fs.pathExists out = false → mkdirAll fs out = some fs1 →
      lookupFile fs.files input = some bytes → c.decomp bytes = some plain →
      tarParse plain = some entries → extractAll out fs1 entries = some fs2 →
      (decompress_tar_zst c fs input o).result
          = .ok ⟨bytes.length, (entries.map fun e => e.2.length).sum⟩ ∧
      (decompress_tar_zst c fs input o).fs.isDir out = true) := by
  refine ⟨?_, ?_, ?_, ?_⟩
  · intro c fs fs1 p out data o h1 h2 h3 h4 h5
    rw [compress_file_run_mkdir h1 h2 h3 h4 h5]
    exact ⟨rfl, by simp [FS.isDir_setFile, mkdirAll_isDir_self h5],
      lookupFile_setFile_self _ _ _⟩
  · intro c fs fs1 d out o h1 h2 h3 h4 h5
    rw [compress_directory_run_mkdir h1 h2 h3 h4 h5]
    exact ⟨rfl, by simp [FS.isDir_setFile, mkdirAll_isDir_self h5],
      lookupFile_setFile_self _ _ _⟩
  · intro c fs fs1 input out iname bytes plain o h0 hres h3 h4 h5 h1 h6
    rw [decompress_single_run_mkdir h0 hres h3 h4 h5 h1 h6]
    exact ⟨rfl, by simp [FS.isDir_setFile, mkdirAll_isDir_self h5],
      lookupFile_setFile_self _ _ _⟩
  · intro c fs fs1 fs2 input out iname bytes plain entries o h0 hop hout h3 h5 h1 h6 h7 h8
    rw [decompress_tar_run_mkdir h0 hop hout h3 h5 h1 h6 h7 h8]
    exact ⟨rfl, extractAll_isDir_of h8 (mkdirAll_isDir_self h5)⟩

/-- Witness for C3: concrete runs of the four operations into a missing
`out/...` parent directory. -/
theorem c3_witness :
    (compress_file idCodec ⟨[(["a.txt".data], [1])], []⟩ ["a.txt".data]
        { CompressOptions.new 3 with output_path := some ["out".data, "b.zst".data] }).fs.isDir
        ["out".data] = true ∧
    (compress_directory idCodec ⟨[], [["d".data]]⟩ ["d".data]
        { CompressOptions.new 3 with output_path := some ["out".data, "d.tar.zst".data] }).fs.isDir
        ["out".data] = true ∧
    (decompress_single_file idCodec ⟨[(["a.zst".data], [1])], []⟩ ["a.zst".data]
        ⟨false, some ["out".data, "a".data]⟩).fs.isDir ["out".data] = true ∧
    (decompress_tar_zst idCodec ⟨[(["d.tar.zst".data], tarBuild [])], []⟩
        ["d.tar.zst".data] ⟨false, none⟩).fs.isDir ["d".data] = true :=
  ⟨(c3_parent_dirs_created.1 idCodec _ ⟨[(["a.txt".data], [1])], [["out".data]]⟩ _
      ["out".data, "b.zst".data] [1] _ (by decide) (by decide) (by decide) (by decide)
      (by decide)).2.1,
    (c3_parent_dirs_created.2.1 idCodec _ ⟨[], [["out".data], ["d".data]]⟩ _
      ["out".data, "d.tar.zst".data] _ (by decide) (by decide) (by decide) (by decide)
      (by decide)).2.1,
    (c3_parent_dirs_created.2.2.1 idCodec _ ⟨[(["a.zst".data], [1])], [["out".data]]⟩ _
      ["out".data, "a".data] "a.zst".data [1] [1] _ (by decide) (by decide) (by decide)
      (by decide) (by decide) (by decide) (by decide)).2.1,
    (c3_parent_dirs_created.2.2.2 idCodec _
      ⟨[(["d.tar.zst".data], tarBuild [])], [["d".data]]⟩
      ⟨[(["d.tar.zst".data], tarBuild [])], [["d".data]]⟩ _ ["d".data] "d.tar.zst".data
      (tarBuild []) (tarBuild []) [] _ (by decide) rfl (by decide) (by decide) (by decide)
      (by decide) (by decide) (by decide) (by decide)).2⟩

/-- C3 counterexample: `compress_multiple_files` into an output whose
parent directory is absent fails with `NotFound` and does not create
the parent directory, falsifying the claim for the multi-file
operation. -/
theorem c3_multi_no_parent_creation :
    (compress_multiple_files idCodec ⟨[(["a.txt".data], [1])], []⟩ [["a.txt".data]]
        ["out".data, "arch.tar.zst".data] (CompressOptions.new 3)).result
        = .error .notFound ∧
    (compress_multiple_files idCodec ⟨[(["a.txt".data], [1])], []⟩ [["a.txt".data]]
        ["out".data, "arch.tar.zst".data] (CompressOptions.new 3)).fs.isDir ["out".data]
        = false :=
  ⟨rfl, rfl⟩

/-! ### Claim C6 -/

/-- C6: in single-file decompression and in verification, the in-loop
progress callbacks form a `ThrottleOK` sequence — each fires only once
at least 1 MiB of decompressed output accumulated since the previous
one and reports `min (decompressed_so_far / 3) compressed_input_size` —
followed by the final exact-size completion callback. -/
theorem c6_throttled_progress_estimate :
    (∀ (c : Codec) (fs : FS) (p : FilePath') (o : DecompressOptions)
        (r : CompressionResult),
      (decompress_single_file c fs p o).result = .ok r →
      ∃ pairs, (decompress_single_file c fs p o).events
          = pairs.map Prod.snd ++ [r.input_size] ∧
        ThrottleOK r.input_size 0 pairs) ∧
    (∀ (c : Codec) (fs : FS) (p : FilePath') (r : VerifyResult),
      (verify_zst c fs p).result = .ok r →
      ∃ pairs, (verify_zst c fs p).events
          = pairs.map Prod.snd ++ [r.compressed_size] ∧
        ThrottleOK r.compressed_size 0 pairs) := by
  constructor
  · intro c fs p o r
    simp only [decompress_single_file]
    repeat' split
    all_goals intro h
    all_goals simp only [Except.ok.injEq, reduceCtorEq] at h
    subst h
    exact ⟨_, rfl, throttledPairs_ok _ _ 0 0 le_rfl⟩
  · intro c fs p r
    simp only [verify_zst]
    repeat' split
    all_goals intro h
    all_goals simp only [Except.ok.injEq, reduceCtorEq] at h
    subst h
    exact ⟨_, rfl, throttledPairs_ok _ _ 0 0 le_rfl⟩

/-- Witness for C6 on a concrete 3-byte stream (no loop callback fires
below 1 MiB; the final exact-size callback is the whole stream). -/
theorem c6_witness :
    (∃ pairs, (decompress_single_file idCodec ⟨[(["a.zst".data], [1, 2, 3])], []⟩
        ["a.zst".data] ⟨false, none⟩).events = List.map Prod.snd pairs ++ [3] ∧
      ThrottleOK 3 0 pairs) ∧
    (∃ pairs, (verify_zst idCodec ⟨[(["a.zst".data], [1, 2, 3])], []⟩
        ["a.zst".data]).events = List.map Prod.snd pairs ++ [3] ∧
      ThrottleOK 3 0 pairs) :=
  ⟨c6_throttled_progress_estimate.1 idCodec _ _ _ ⟨3, 3⟩ rfl,
    c6_throttled_progress_estimate.2 idCodec _ _ ⟨3, 3⟩ rfl⟩

/-! ### Claim C7 -/

/-- C7: every engine operation reports a non-decreasing progress
sequence within one invocation, and single-file decompression and
verification end, on success, with a final callback carrying exactly
the compressed input size. -/
theorem c7_progress_monotone :
    (∀ (c : Codec) (fs : FS) (p : FilePath') (o : CompressOptions),
      MonoEvents (compress_file c fs p o).events) ∧
    (∀ (c : Codec) (fs : FS) (d : FilePath') (o : CompressOptions),
      MonoEvents (compress_directory c fs d o).events) ∧
    (∀ (c : Codec) (fs : FS) (ins : List FilePath') (out : FilePath')
        (o : CompressOptions),
      MonoEvents (compress_multiple_files c fs ins out o).events) ∧
    (∀ (c : Codec) (fs : FS) (p : FilePath') (o : DecompressOptions),
      MonoEvents (decompress_tar_zst c fs p o).events) ∧
    (∀ (c : Codec) (fs : FS) (p : FilePath') (o : DecompressOptions),
      MonoEvents (decompress_single_file c fs p o).events ∧
      ∀ r, (decompress_single_file c fs p o).result = .ok r →
        (decompress_single_file c fs p o).events.getLast? = some r.input_size) ∧
    (∀ (c : Codec) (fs : FS) (p : FilePath'),
      MonoEvents (verify_zst c fs p).events ∧
      ∀ r, (verify_zst c fs p).result = .ok r →
        (verify_zst c fs p).events.getLast? = some r.compressed_size) := by
  refine ⟨?_, ?_, ?_, ?_, ?_, ?_⟩
  · intro c fs p o
    simp only [compress_file]
    repeat' split
    all_goals first
      | exact List.chain'_nil
      | exact cumSums_chain _ _
  · intro c fs d o
    simp only [compress_directory]
    repeat' split
    all_goals first
      | exact List.chain'_nil
      | exact cumSums_chain _ _
  · intro c fs ins out o
    simp only [compress_multiple_files]
    repeat' split
    all_goals first
      | exact List.chain'_nil
      | exact cumSums_chain _ _
  · intro c fs p o
    simp only [decompress_tar_zst]
    repeat' split
    all_goals first
      | exact List.chain'_nil
      | exact cumSums_chain _ _
  · intro c fs p o
    simp only [decompress_single_file]
    repeat' split
    all_goals constructor
    all_goals first
      | exact List.chain'_nil
      | exact throttle_events_mono
      | (intro r h; simp only [reduceCtorEq] at h; done)
      | (intro r h; simp only [Except.ok.injEq] at h; subst h;
          simp [List.getLast?_concat])
  · intro c fs p
    simp only [verify_zst]
    repeat' split
    all_goals constructor
    all_goals first
      | exact List.chain'_nil
      | exact throttle_events_mono
      | (intro r h; simp only [reduceCtorEq] at h; done)
      | (intro r h; simp only [Except.ok.injEq] at h; subst h;
          simp [List.getLast?_concat])

/-- Witness for C7: the concrete final callback of a successful
3-byte decompression and verification. -/
theorem c7_witness :
    (decompress_single_file idCodec ⟨[(["a.zst".data], [1, 2, 3])], []⟩
        ["a.zst".data] ⟨false, none⟩).events.getLast? = some 3 ∧
    (verify_zst idCodec ⟨[(["a.zst".data], [1, 2, 3])], []⟩
        ["a.zst".data]).events.getLast? = some 3 :=
  ⟨(c7_progress_monotone.2.2.2.2.1 idCodec _ _ ⟨false, none⟩).2 ⟨3, 3⟩ rfl,
    (c7_progress_monotone.2.2.2.2.2 idCodec _ _).2 ⟨3, 3⟩ rfl⟩

/-! ### Claim C1 -/

/-- C1 (amended): for a lossless codec and every regular file whose
name does not end in `.tar`, at every level in `1..=21`, compressing
with `compress_file` and then decompressing the produced `.zst` with
`decompress_file` (force set, since the original still occupies the
default output path) reproduces the file byte-for-byte.  Files named
`*.tar` are excluded: their compressed name ends in `.tar.zst` and is
dispatched to archive extraction instead (see the counterexample). -/
theorem c1_roundtrip_non_tar_file :
    ∀ (c : Codec) (fs : FS) (dir : FilePath') (name : Name) (data : List Nat)
      (level : Int),
      c.Lossless → name ≠ [] → ¬ (".tar".data <:+ name) →
      1 ≤ level → level ≤ 21 →
      lookupFile fs.files (dir ++ [name]) = some data →
      fs.isDir (dir ++ [name]) = false →
      fs.isDir dir = true →
      fs.pathExists (dir ++ [name ++ ".zst".data]) = false →
      (compress_file c fs (dir ++ [name]) (CompressOptions.new level)).result
          = .ok ⟨data.length, (c.comp level data).length⟩ ∧
      (decompress_file c
          (compress_file c fs (dir ++ [name]) (CompressOptions.new level)).fs
          (dir ++ [name ++ ".zst".data]) ⟨true, none⟩).result
          = .ok ⟨(c.comp level data).length, data.length⟩ ∧
      lookupFile (decompress_file c
          (compress_file c fs (dir ++ [name]) (CompressOptions.new level)).fs
          (dir ++ [name ++ ".zst".data]) ⟨true, none⟩).fs.files (dir ++ [name])
          = some data := by
  intro c fs dir name data level hc hn htar hl1 hl2 h1 hpd hdir hq
  have hres : resolveCompressOut fs (dir ++ [name])
      (CompressOptions.new level).output_path = some (dir ++ [name ++ ".zst".data]) := by
    simp [resolveCompressOut, CompressOptions.new, build_output_path_concat]
  have h3 : (fs.pathExists (dir ++ [name ++ ".zst".data])
      && !(CompressOptions.new level).force) = false := by
    rw [hq]
    simp
  have h5 : fs.isDir (dir ++ [name ++ ".zst".data]) = false :=
    FS.isDir_false_of_not_exists hq
  have h4 : fs.isDir (dir ++ [name ++ ".zst".data]).dropLast = true := by
    rw [List.dropLast_concat]
    exact hdir
  have hcomp : compress_file c fs (dir ++ [name]) (CompressOptions.new level)
      = ⟨fs.setFile (dir ++ [name ++ ".zst".data]) (c.comp level data),
          cumSums 0 (chunkSizes data.length (optimal_buffer_size data.length)),
          .ok ⟨data.length, (c.comp level data).length⟩⟩ :=
    compress_file_run h1 hres h3 h5 h4
  have hfs : (compress_file c fs (dir ++ [name]) (CompressOptions.new level)).fs
      = fs.setFile (dir ++ [name ++ ".zst".data]) (c.comp level data) := by
    rw [hcomp]
  have hlq : lookupFile
      (fs.setFile (dir ++ [name ++ ".zst".data]) (c.comp level data)).files
      (dir ++ [name ++ ".zst".data]) = some (c.comp level data) :=
    lookupFile_setFile_self _ _ _
  have hdisp : decompress_file c
      (fs.setFile (dir ++ [name ++ ".zst".data]) (c.comp level data))
      (dir ++ [name ++ ".zst".data]) ⟨true, none⟩
      = decompress_single_file c
        (fs.setFile (dir ++ [name ++ ".zst".data]) (c.comp level data))
        (dir ++ [name ++ ".zst".data]) ⟨true, none⟩ :=
    decompress_file_to_single
      (FS.pathExists_of_isFile (FS.isFile_of_lookup hlq))
      (by rw [List.getLast?_concat]; exact hasZstExt_append_zst hn)
      (isTarPath_concat_zst htar)
  have hres2 : resolveSingleOut
      (fs.setFile (dir ++ [name ++ ".zst".data]) (c.comp level data))
      (dir ++ [name ++ ".zst".data]) (none : Option FilePath')
      (fileStemOf (name ++ ".zst".data)) = dir ++ [name] := by
    simp only [resolveSingleOut, List.dropLast_concat, fileStemOf_append_zst hn]
  have hsingle : decompress_single_file c
      (fs.setFile (dir ++ [name ++ ".zst".data]) (c.comp level data))
      (dir ++ [name ++ ".zst".data]) ⟨true, none⟩
      = ⟨(fs.setFile (dir ++ [name ++ ".zst".data]) (c.comp level data)).setFile
            (dir ++ [name]) data,
          (throttledPairs (c.comp level data).length 0 0
            (chunkSizes data.length
              (optimal_buffer_size (c.comp level data).length))).map Prod.snd
            ++ [(c.comp level data).length],
          .ok ⟨(c.comp level data).length, data.length⟩⟩ :=
    decompress_single_run (List.getLast?_concat _) hres2 (by simp)
      (by rw [List.dropLast_concat, FS.isDir_setFile]; exact hdir)
      hlq (by rw [FS.isDir_setFile]; exact hpd) (hc _ data)
  refine ⟨by rw [hcomp], ?_, ?_⟩
  · rw [hfs, hdisp, hsingle]
  · rw [hfs, hdisp, hsingle]
    exact lookupFile_setFile_self _ _ _

/-- Witness for C1: a 3-byte file `a.txt` at the root, level 3,
with the identity codec. -/
theorem c1_witness :
    (compress_file idCodec ⟨[(["a.txt".data], [1, 2, 3])], []⟩ ["a.txt".data]
        (CompressOptions.new 3)).result = .ok ⟨3, 3⟩ ∧
    (decompress_file idCodec
        (compress_file idCodec ⟨[(["a.txt".data], [1, 2, 3])], []⟩ ["a.txt".data]
          (CompressOptions.new 3)).fs ["a.txt.zst".data] ⟨true, none⟩).result
        = .ok ⟨3, 3⟩ ∧
    lookupFile (decompress_file idCodec
        (compress_file idCodec ⟨[(["a.txt".data], [1, 2, 3])], []⟩ ["a.txt".data]
          (CompressOptions.new 3)).fs ["a.txt.zst".data] ⟨true, none⟩).fs.files
        ["a.txt".data] = some [1, 2, 3] :=
  c1_roundtrip_non_tar_file idCodec ⟨[(["a.txt".data], [1, 2, 3])], []⟩ [] "a.txt".data
    [1, 2, 3] 3 idCodec_lossless (by decide) (by decide) (by decide) (by decide)
    (by decide) (by decide) (by decide) (by decide)

/-- C1 counterexample: the file `x.tar` compresses to `x.tar.zst`, but
`decompress_file` dispatches that name to archive extraction, which
rejects the decompressed bytes (not a tar stream) with `InvalidData`
instead of reproducing the file — even with a lossless codec and a
valid level. -/
theorem c1_tar_named_file_fails :
    (compress_file idCodec ⟨[(["x.tar".data], [1, 2, 3])], []⟩ ["x.tar".data]
        (CompressOptions.new 3)).result = .ok ⟨3, 3⟩ ∧
    (decompress_file idCodec
        (compress_file idCodec ⟨[(["x.tar".data], [1, 2, 3])], []⟩ ["x.tar".data]
          (CompressOptions.new 3)).fs ["x.tar.zst".data] ⟨true, none⟩).result
        = .error .invalidData :=
  ⟨rfl, rfl⟩
